import Mathlib

/-!
Verification of the heyinLab/common support library.

The development shallowly embeds the two pieces of logic the specification
describes: the consul registrar's endpoint rewriting (`pkg/common/registry.go`)
and the resource client's batch file-URL path (`pkg/resource/file.go`).
Strings are modelled as lists of characters; Go maps as association lists with
overwrite-on-insert; the remote gRPC call as an oracle function parameter.
-/

namespace Heyin

/-- Go strings, modelled character by character. -/
abbrev Str := List Char

/-- The literal separator `://` used by `strings.SplitN(endpoint, "://", 2)`. -/
def sepStr : Str := [':', '/', '/']

/-- The literal scheme `http` that selects the http partition. -/
def httpStr : Str := ['h', 't', 't', 'p']

/-- `strings.SplitN(s, "://", 2)`: splits at the first occurrence of `://`.
Returns `none` when the separator does not occur (Go returns a single part). -/
def splitSchemeAux : Str → Option (Str × Str)
  | [] => none
  | c :: rest =>
    if c = ':' ∧ rest.take 2 = ['/', '/'] then some ([], rest.drop 2)
    else (splitSchemeAux rest).map (fun p => (c :: p.1, p.2))

/-- Index of the last occurrence of a character, as in Go's `last(hostport, ':')`. -/
def lastIdxOf (c : Char) : Str → Option Nat
  | [] => none
  | x :: rest =>
    match lastIdxOf c rest with
    | some i => some (i + 1)
    | none => if x = c then some 0 else none

/-- Index of the first occurrence of a character, as in Go's `byteIndex`. -/
def firstIdxOf (c : Char) : Str → Option Nat
  | [] => none
  | x :: rest => if x = c then some 0 else (firstIdxOf c rest).map (· + 1)

/-- Go's `net.SplitHostPort`, translated branch by branch: the port starts
after the last colon; a leading `[` opens a bracketed host whose `]` must sit
just before that colon; unbracketed hosts may not contain `:`; stray `[`/`]`
are rejected.  `none` stands for a non-nil `err`. -/
def splitHostPort (s : Str) : Option (Str × Str) :=
  match lastIdxOf ':' s with
  | none => none
  | some i =>
    if s.take 1 = ['['] then
      match firstIdxOf ']' s with
      | none => none
      | some e =>
        if e + 1 = s.length then none
        else if e + 1 = i then
          if '[' ∈ s.drop 1 then none
          else if ']' ∈ s.drop (e + 1) then none
          else some ((s.drop 1).take (e - 1), s.drop (i + 1))
        else none
    else
      if ':' ∈ s.take i then none
      else if '[' ∈ s then none
      else if ']' ∈ s then none
      else some (s.take i, s.drop (i + 1))

/-- Go map lookup over the association-list model (keys are kept unique by
`mapUpsert`, so first match is the match). -/
def mapLookup : List (Str × Str) → Str → Option Str
  | [], _ => none
  | (k, v) :: rest, q => if k = q then some v else mapLookup rest q

/-- Go map assignment `m[k] = v`: overwrites an existing key, else appends. -/
def mapUpsert : List (Str × Str) → Str → Str → List (Str × Str)
  | [], k, v => [(k, v)]
  | (k', v') :: rest, k, v =>
    if k' = k then (k, v) :: rest else (k', v') :: mapUpsert rest k v

/-- Go's `strings.Split(s, ":")` for a single-character separator. -/
def splitChar (c : Char) : Str → List Str
  | [] => [[]]
  | x :: rest =>
    let r := splitChar c rest
    if x = c then [] :: r
    else
      match r with
      | [] => [[x]]
      | h :: t => (x :: h) :: t

/-- `parseEnvToMap` from `registry.go`: empty input is a no-op; otherwise split
on `:` and record the pair only when there are exactly two tokens. -/
def parseEnvToMap (envVal : Str) (m : List (Str × Str)) : List (Str × Str) :=
  if envVal = [] then m
  else
    match splitChar ':' envVal with
    | [a, b] => mapUpsert m a b
    | _ => m

/-- Step 3 of `Register`'s loop: `finalPort := port`, replaced by
`r.portMap[port]` when that lookup hits a non-empty value. -/
def finalPortOf (pm : List (Str × Str)) (port : Str) : Str :=
  match mapLookup pm port with
  | some mapped => if mapped ≠ [] then mapped else port
  | none => port

/-- The per-endpoint body of `customRegistrar.Register`'s loop: parse scheme
and host:port; on either failure the original string is destined for the
`otherEndpoints` slice (flag `false`); otherwise rebuild
`protocol://serviceHost:finalPort`.  The flag is `true` exactly when the
protocol is the literal `http`. -/
def rewriteOne (host : Str) (pm : List (Str × Str)) (ep : Str) : Bool × Str :=
  match splitSchemeAux ep with
  | none => (false, ep)
  | some (protocol, addr) =>
    match splitHostPort addr with
    | none => (false, ep)
    | some (_, port) =>
      (decide (protocol = httpStr), protocol ++ sepStr ++ host ++ ':' :: finalPortOf pm port)

/-- The loop of `Register`: builds `httpEndpoints` and `otherEndpoints` in
input order. -/
def partitionEndpoints (host : Str) (pm : List (Str × Str)) : List Str → List Str × List Str
  | [] => ([], [])
  | ep :: rest =>
    let pr := partitionEndpoints host pm rest
    let r := rewriteOne host pm ep
    if r.1 then (r.2 :: pr.1, pr.2) else (pr.1, r.2 :: pr.2)

/-- `service.Endpoints = append(httpEndpoints, otherEndpoints...)`. -/
def rewriteEndpoints (host : Str) (pm : List (Str × Str)) (eps : List Str) : List Str :=
  (partitionEndpoints host pm eps).1 ++ (partitionEndpoints host pm eps).2

/-- Whether an endpoint parses fully and has scheme exactly `http`; this is
independent of the configured host and port map. -/
def classifiesHttp (ep : Str) : Bool :=
  match splitSchemeAux ep with
  | none => false
  | some (protocol, addr) =>
    match splitHostPort addr with
    | none => false
    | some _ => decide (protocol = httpStr)

/-- The slice of `registry.ServiceInstance` the rewrite touches. -/
structure ServiceInstance where
  name : Str
  endpoints : List Str
deriving DecidableEq

/-- `customRegistrar.Register` up to the delegation to the inner registrar:
with an empty configured host the service is forwarded untouched; otherwise
its `Endpoints` field is overwritten with the rewritten list.  The returned
value is the service instance as the inner registrar receives it. -/
def registerEndpoints (serviceHost : Str) (pm : List (Str × Str))
    (service : ServiceInstance) : ServiceInstance :=
  if serviceHost = [] then service
  else { service with endpoints := rewriteEndpoints serviceHost pm service.endpoints }

/-- A string free of the characters that confuse re-parsing: `:`, `[`, `]`. -/
def cleanStr (s : Str) : Prop := ':' ∉ s ∧ '[' ∉ s ∧ ']' ∉ s

instance (s : Str) : Decidable (cleanStr s) := by
  unfold cleanStr; infer_instance

/-- `BatchGetFileUrlsRequest` from `file.go`. -/
structure BatchGetFileUrlsRequest where
  fileIDs : List Str
  includeVariants : Bool
  expiresIn : Int
deriving DecidableEq

/-- The wire request `v1.BatchGetFileUrlsRequest` handed to the gRPC client. -/
structure WireBatchRequest where
  fileIds : List Str
  includeVariants : Bool
  expiresIn : Int
deriving DecidableEq

/-- One entry of the remote response's `Results` map. -/
structure WireFileUrlInfo where
  url : Str
  variantUrls : List (Str × Str)
  isPublic : Bool
  expiresIn : Int
  filename : Str
  size : Int
  contentType : Str
  success : Bool
  error : Str
deriving DecidableEq

/-- The caller-facing `FileUrlInfo` struct. -/
structure FileUrlInfo where
  url : Str
  variantUrls : List (Str × Str)
  isPublic : Bool
  expiresIn : Int
  filename : Str
  size : Int
  contentType : Str
  success : Bool
  error : Str
deriving DecidableEq

/-- `v1.BatchGetFileUrlsResponse`, keyed by file id. -/
structure WireBatchResponse where
  results : List (Str × WireFileUrlInfo)
  expiresIn : Int
deriving DecidableEq

/-- The field-by-field copy in the response-conversion loop of
`BatchGetFileUrlsWithOptions`. -/
def convertInfo (info : WireFileUrlInfo) : FileUrlInfo :=
  { url := info.url, variantUrls := info.variantUrls, isPublic := info.isPublic,
    expiresIn := info.expiresIn, filename := info.filename, size := info.size,
    contentType := info.contentType, success := info.success, error := info.error }

/-- The in-place defaulting `if req.ExpiresIn <= 0 { req.ExpiresIn = 3600 }`. -/
def defaultedReq (r : BatchGetFileUrlsRequest) : BatchGetFileUrlsRequest :=
  if r.expiresIn ≤ 0 then { r with expiresIn := 3600 } else r

/-- Construction of the wire request from the (defaulted) caller request. -/
def wireOf (r : BatchGetFileUrlsRequest) : WireBatchRequest :=
  { fileIds := r.fileIDs, includeVariants := r.includeVariants, expiresIn := r.expiresIn }

/-- Observable outcome of one call to `BatchGetFileUrlsWithOptions`:
`results = none` models a non-nil returned error; `reqAfter` is the caller's
request struct after the call (the code mutates its `ExpiresIn`); `warned`
records whether the over-100 advisory log fired; `wireSent` is the request
given to the gRPC client, `none` when no network call was made. -/
structure BatchCallResult where
  results : Option (List (Str × FileUrlInfo))
  reqAfter : Option BatchGetFileUrlsRequest
  warned : Bool
  wireSent : Option WireBatchRequest
deriving DecidableEq

/-- `Client.BatchGetFileUrlsWithOptions`, with the remote gRPC call abstracted
as an oracle.  A nil request or empty id list returns an empty map and nil
error without any network call. -/
def batchGetFileUrlsWithOptions (remote : WireBatchRequest → Option WireBatchResponse)
    (req : Option BatchGetFileUrlsRequest) : BatchCallResult :=
  match req with
  | none => { results := some [], reqAfter := none, warned := false, wireSent := none }
  | some r =>
    if r.fileIDs = [] then
      { results := some [], reqAfter := some r, warned := false, wireSent := none }
    else
      let warned := decide (r.fileIDs.length > 100)
      let r2 := defaultedReq r
      let wire := wireOf r2
      match remote wire with
      | none => { results := none, reqAfter := some r2, warned := warned, wireSent := some wire }
      | some resp =>
        { results := some (resp.results.map (fun p => (p.1, convertInfo p.2))),
          reqAfter := some r2, warned := warned, wireSent := some wire }

/-- `Client.BatchGetFileUrls`: the convenience wrapper supplying the default
`IncludeVariants = true` and `ExpiresIn = 3600`. -/
def batchGetFileUrls (remote : WireBatchRequest → Option WireBatchResponse)
    (fileIDs : List Str) : BatchCallResult :=
  batchGetFileUrlsWithOptions remote
    (some { fileIDs := fileIDs, includeVariants := true, expiresIn := 3600 })

/-- The two error classes a single-file operation can surface. -/
inductive CallError
  | emptyID
  | remoteFail
deriving DecidableEq

/-- `Client.GetFile`: empty id fails before any network traffic; the second
component is the id sent to the remote call (`none` = no call made). -/
def getFile (α : Type) (remote : Str → Option α) (fileID : Str) :
    Except CallError α × Option Str :=
  if fileID = [] then (Except.error CallError.emptyID, none)
  else
    match remote fileID with
    | none => (Except.error CallError.remoteFail, some fileID)
    | some f => (Except.ok f, some fileID)

/-- `Client.GetDownloadUrl`: empty id fails before any network traffic; the
wire request carries the id and the fixed `ExpiresIn = 3600`. -/
def getDownloadUrl (remote : Str × Int → Option (Str × List (Str × Str)))
    (fileID : Str) :
    Except CallError (Str × List (Str × Str)) × Option (Str × Int) :=
  if fileID = [] then (Except.error CallError.emptyID, none)
  else
    match remote (fileID, 3600) with
    | none => (Except.error CallError.remoteFail, some (fileID, 3600))
    | some r => (Except.ok r, some (fileID, 3600))

/-! ### Library of facts about the string-splitting primitives -/

theorem splitSchemeAux_none_append (pr rest : Str) (h : splitSchemeAux pr = none) :
    splitSchemeAux (pr ++ ':' :: '/' :: '/' :: rest) = some (pr, rest) := by
  induction pr with
  | nil => simp [splitSchemeAux]
  | cons c pr' ih =>
    rw [splitSchemeAux] at h
    by_cases hc : c = ':' ∧ pr'.take 2 = ['/', '/']
    · rw [if_pos hc] at h; simp at h
    · rw [if_neg hc] at h
      have hpr' : splitSchemeAux pr' = none := by
        cases hx : splitSchemeAux pr' with
        | none => rfl
        | some p => rw [hx] at h; simp at h
      have goalcond : ¬ (c = ':' ∧ (pr' ++ ':' :: '/' :: '/' :: rest).take 2 = ['/', '/']) := by
        rintro ⟨hc1, ht⟩
        rcases pr' with _ | ⟨x, _ | ⟨y, t⟩⟩
        · simp at ht
        · simp at ht
        · simp at ht
          exact hc ⟨hc1, by simp [ht.1, ht.2]⟩
      rw [List.cons_append, splitSchemeAux, if_neg goalcond, ih hpr']
      rfl

theorem splitSchemeAux_eq_some (s pr ad : Str) (h : splitSchemeAux s = some (pr, ad)) :
    s = pr ++ ':' :: '/' :: '/' :: ad ∧ splitSchemeAux pr = none := by
  induction s generalizing pr ad with
  | nil => simp [splitSchemeAux] at h
  | cons c rest ih =>
    rw [splitSchemeAux] at h
    by_cases hc : c = ':' ∧ rest.take 2 = ['/', '/']
    · rw [if_pos hc] at h
      have h' := Option.some.inj h
      have h1 : pr = [] := (congrArg Prod.fst h').symm
      have h2 : ad = rest.drop 2 := (congrArg Prod.snd h').symm
      subst h1; subst h2
      obtain ⟨hc1, ht⟩ := hc
      subst hc1
      refine ⟨?_, by simp [splitSchemeAux]⟩
      conv_lhs => rw [← List.take_append_drop 2 rest]
      rw [ht]
      rfl
    · rw [if_neg hc] at h
      cases hx : splitSchemeAux rest with
      | none => rw [hx] at h; simp at h
      | some q =>
        rw [hx] at h
        obtain ⟨pr', ad'⟩ := q
        simp only [Option.map_some'] at h
        have h' := Option.some.inj h
        have h1 : pr = c :: pr' := (congrArg Prod.fst h').symm
        have h2 : ad = ad' := (congrArg Prod.snd h').symm
        subst h1; subst h2
        obtain ⟨hrest, hnone⟩ := ih pr' ad hx
        constructor
        · rw [List.cons_append, hrest]
        · rw [splitSchemeAux, if_neg ?_, hnone]
          · rfl
          · rintro ⟨hc1, ht⟩
            have hlen : 2 ≤ pr'.length := by
              have := congrArg List.length ht
              simp [List.length_take] at this
              omega
            exact hc ⟨hc1, by rw [hrest, List.take_append_of_le_length hlen, ht]⟩

theorem not_mem_of_lastIdxOf_none (c : Char) (s : Str) (h : lastIdxOf c s = none) : c ∉ s := by
  induction s with
  | nil => simp
  | cons x rest ih =>
    rw [lastIdxOf] at h
    cases hx : lastIdxOf c rest with
    | some j => rw [hx] at h; simp at h
    | none =>
      rw [hx] at h
      by_cases hxc : x = c
      · rw [if_pos hxc] at h; simp at h
      · intro hmem
        rcases List.mem_cons.mp hmem with h1 | h2
        · exact hxc h1.symm
        · exact ih hx h2

theorem lastIdxOf_eq_none (c : Char) (s : Str) (h : c ∉ s) : lastIdxOf c s = none := by
  induction s with
  | nil => rfl
  | cons x rest ih =>
    simp only [List.mem_cons, not_or] at h
    rw [lastIdxOf, ih h.2, if_neg (fun hx => h.1 hx.symm)]

theorem lastIdxOf_append_cons (c : Char) (h p : Str) (hh : c ∉ h) (hp : c ∉ p) :
    lastIdxOf c (h ++ c :: p) = some h.length := by
  induction h with
  | nil =>
    simp only [List.nil_append, List.length_nil]
    rw [lastIdxOf, lastIdxOf_eq_none c p hp, if_pos rfl]
  | cons x h' ih =>
    simp only [List.mem_cons, not_or] at hh
    rw [List.cons_append, lastIdxOf, ih hh.2]
    simp

theorem lastIdxOf_not_mem_drop (c : Char) (s : Str) (i : Nat) (h : lastIdxOf c s = some i) :
    c ∉ s.drop (i + 1) := by
  induction s generalizing i with
  | nil => simp [lastIdxOf] at h
  | cons x rest ih =>
    rw [lastIdxOf] at h
    cases hx : lastIdxOf c rest with
    | some j =>
      rw [hx] at h
      have hij : i = j + 1 := by
        injection h with h; omega
      subst hij
      simpa using ih j hx
    | none =>
      rw [hx] at h
      by_cases hxc : x = c
      · rw [if_pos hxc] at h
        have hi0 : i = 0 := by injection h with h; omega
        subst hi0
        simpa using not_mem_of_lastIdxOf_none c rest hx
      · rw [if_neg hxc] at h; simp at h

theorem splitHostPort_append (h p : Str) (hh : cleanStr h) (hp : cleanStr p) :
    splitHostPort (h ++ ':' :: p) = some (h, p) := by
  obtain ⟨hh1, hh2, hh3⟩ := hh
  obtain ⟨hp1, hp2, hp3⟩ := hp
  have hlast : lastIdxOf ':' (h ++ ':' :: p) = some h.length :=
    lastIdxOf_append_cons ':' h p hh1 hp1
  have htk : ¬ (h ++ ':' :: p).take 1 = ['['] := by
    cases h with
    | nil => simp
    | cons x h' =>
      simp only [List.cons_append, List.take_succ_cons, List.take_zero]
      intro hx
      have hx' : x = '[' := by simpa using hx
      exact hh2 (by rw [← hx']; exact List.mem_cons_self x h')
  have hc1 : ¬ ':' ∈ (h ++ ':' :: p).take h.length := by
    rw [List.take_left]; exact hh1
  have hc2 : ¬ '[' ∈ h ++ ':' :: p := by
    intro hm
    rcases List.mem_append.mp hm with hm | hm
    · exact hh2 hm
    · rcases List.mem_cons.mp hm with hm | hm
      · simp at hm
      · exact hp2 hm
  have hc3 : ¬ ']' ∈ h ++ ':' :: p := by
    intro hm
    rcases List.mem_append.mp hm with hm | hm
    · exact hh3 hm
    · rcases List.mem_cons.mp hm with hm | hm
      · simp at hm
      · exact hp3 hm
  have hdrop : (h ++ ':' :: p).drop (h.length + 1) = p := by
    have e1 : h ++ ':' :: p = (h ++ [':']) ++ p := by simp
    have e2 : h.length + 1 = (h ++ [':']).length := by simp
    rw [e1, e2, List.drop_left]
  simp only [splitHostPort, hlast]
  rw [if_neg htk, if_neg hc1, if_neg hc2, if_neg hc3, List.take_left, hdrop]

theorem splitHostPort_port_clean (s h p : Str) (hsp : splitHostPort s = some (h, p)) :
    cleanStr p := by
  cases hl : lastIdxOf ':' s with
  | none => simp [splitHostPort, hl] at hsp
  | some i =>
    simp only [splitHostPort, hl] at hsp
    have hcolon : ':' ∉ s.drop (i + 1) := lastIdxOf_not_mem_drop ':' s i hl
    by_cases hbr : s.take 1 = ['[']
    · rw [if_pos hbr] at hsp
      cases he : firstIdxOf ']' s with
      | none => simp [he] at hsp
      | some e =>
        simp only [he] at hsp
        by_cases h1 : e + 1 = s.length
        · rw [if_pos h1] at hsp; simp at hsp
        · rw [if_neg h1] at hsp
          by_cases h2 : e + 1 = i
          · rw [if_pos h2] at hsp
            by_cases h3 : '[' ∈ s.drop 1
            · rw [if_pos h3] at hsp; simp at hsp
            · rw [if_neg h3] at hsp
              by_cases h4 : ']' ∈ s.drop (e + 1)
              · rw [if_pos h4] at hsp; simp at hsp
              · rw [if_neg h4] at hsp
                have hps : p = s.drop (i + 1) :=
                  (congrArg Prod.snd (Option.some.inj hsp)).symm
                subst hps
                refine ⟨hcolon, ?_, ?_⟩
                · intro hm
                  apply h3
                  have hdd : s.drop (i + 1) = (s.drop 1).drop i := by
                    rw [List.drop_drop]; congr 1; omega
                  rw [hdd] at hm
                  exact List.drop_subset i (s.drop 1) hm
                · intro hm
                  apply h4
                  have hdd : s.drop (i + 1) = (s.drop (e + 1)).drop 1 := by
                    rw [List.drop_drop]; congr 1; omega
                  rw [hdd] at hm
                  exact List.drop_subset 1 (s.drop (e + 1)) hm
          · rw [if_neg h2] at hsp; simp at hsp
    · rw [if_neg hbr] at hsp
      by_cases hc1 : ':' ∈ s.take i
      · rw [if_pos hc1] at hsp; simp at hsp
      · rw [if_neg hc1] at hsp
        by_cases hc2 : '[' ∈ s
        · rw [if_pos hc2] at hsp; simp at hsp
        · rw [if_neg hc2] at hsp
          by_cases hc3 : ']' ∈ s
          · rw [if_pos hc3] at hsp; simp at hsp
          · rw [if_neg hc3] at hsp
            have hps : p = s.drop (i + 1) :=
              (congrArg Prod.snd (Option.some.inj hsp)).symm
            subst hps
            exact ⟨hcolon, fun hm => hc2 (List.drop_subset _ s hm),
              fun hm => hc3 (List.drop_subset _ s hm)⟩

theorem mapLookup_mem (pm : List (Str × Str)) (k v : Str) (h : mapLookup pm k = some v) :
    (k, v) ∈ pm := by
  induction pm with
  | nil => simp [mapLookup] at h
  | cons e rest ih =>
    obtain ⟨k', v'⟩ := e
    rw [mapLookup] at h
    by_cases hk : k' = k
    · rw [if_pos hk] at h
      have hv := Option.some.inj h
      subst hk; subst hv
      exact List.mem_cons_self _ _
    · rw [if_neg hk] at h
      exact List.mem_cons_of_mem _ (ih h)

theorem rewriteOne_fst (host : Str) (pm : List (Str × Str)) (ep : Str) :
    (rewriteOne host pm ep).1 = classifiesHttp ep := by
  rw [rewriteOne, classifiesHttp]
  cases splitSchemeAux ep with
  | none => simp
  | some q =>
    obtain ⟨pr, ad⟩ := q
    cases hsp2 : splitHostPort ad with
    | none => simp [hsp2]
    | some z => simp [hsp2]

theorem finalPortOf_clean (pm : List (Str × Str)) (p : Str)
    (hvals : ∀ e ∈ pm, cleanStr e.2) (hp : cleanStr p) :
    cleanStr (finalPortOf pm p) := by
  rw [finalPortOf]
  cases hl : mapLookup pm p with
  | none => exact hp
  | some v =>
    by_cases hv : v = []
    · simpa [hv] using hp
    · simpa [hv] using hvals (p, v) (mapLookup_mem pm p v hl)

theorem finalPortOf_idem (pm : List (Str × Str)) (p : Str)
    (hfix : ∀ e ∈ pm, e.2 ≠ [] →
      mapLookup pm e.2 = none ∨ mapLookup pm e.2 = some [] ∨ mapLookup pm e.2 = some e.2) :
    finalPortOf pm (finalPortOf pm p) = finalPortOf pm p := by
  cases hl : mapLookup pm p with
  | none =>
    have h1 : finalPortOf pm p = p := by simp only [finalPortOf, hl]
    rw [h1, finalPortOf, hl]
  | some v =>
    by_cases hv : v = []
    · have h1 : finalPortOf pm p = p := by simp [finalPortOf, hl, hv]
      rw [h1, h1]
    · have h1 : finalPortOf pm p = v := by simp [finalPortOf, hl, hv]
      rw [h1]
      rcases hfix (p, v) (mapLookup_mem pm p v hl) hv with hf | hf | hf
      · simp only [finalPortOf, hf]
      · simp [finalPortOf, hf]
      · simp [finalPortOf, hf, hv]

theorem rewriteOne_idem (host : Str) (pm : List (Str × Str))
    (hhost : cleanStr host)
    (hvals : ∀ e ∈ pm, cleanStr e.2)
    (hfix : ∀ e ∈ pm, e.2 ≠ [] →
      mapLookup pm e.2 = none ∨ mapLookup pm e.2 = some [] ∨ mapLookup pm e.2 = some e.2)
    (ep : Str) :
    rewriteOne host pm (rewriteOne host pm ep).2 = rewriteOne host pm ep := by
  cases hs : splitSchemeAux ep with
  | none =>
    have h1 : rewriteOne host pm ep = (false, ep) := by simp only [rewriteOne, hs]
    rw [h1]
    exact h1
  | some q =>
    obtain ⟨pr, ad⟩ := q
    cases hp : splitHostPort ad with
    | none =>
      have h1 : rewriteOne host pm ep = (false, ep) := by simp only [rewriteOne, hs, hp]
      rw [h1]
      exact h1
    | some z =>
      obtain ⟨h0, p0⟩ := z
      have h1 : rewriteOne host pm ep =
          (decide (pr = httpStr), pr ++ sepStr ++ host ++ ':' :: finalPortOf pm p0) := by
        simp only [rewriteOne, hs, hp]
      rw [h1]
      dsimp only
      have hprnone : splitSchemeAux pr = none := (splitSchemeAux_eq_some ep pr ad hs).2
      have hfp : cleanStr (finalPortOf pm p0) :=
        finalPortOf_clean pm p0 hvals (splitHostPort_port_clean ad h0 p0 hp)
      have hs2 : splitSchemeAux (pr ++ sepStr ++ host ++ ':' :: finalPortOf pm p0)
          = some (pr, host ++ ':' :: finalPortOf pm p0) := by
        have hra := splitSchemeAux_none_append pr (host ++ ':' :: finalPortOf pm p0) hprnone
        simpa [sepStr, List.append_assoc] using hra
      have hp2 : splitHostPort (host ++ ':' :: finalPortOf pm p0)
          = some (host, finalPortOf pm p0) := splitHostPort_append host _ hhost hfp
      have h2 : rewriteOne host pm (pr ++ sepStr ++ host ++ ':' :: finalPortOf pm p0)
          = (decide (pr = httpStr),
             pr ++ sepStr ++ host ++ ':' :: finalPortOf pm (finalPortOf pm p0)) := by
        simp only [rewriteOne, hs2, hp2]
      rw [h2, finalPortOf_idem pm p0 hfix]

/-! ### Facts about the partition built by the registration loop -/

theorem partitionEndpoints_append (host : Str) (pm : List (Str × Str)) (xs ys : List Str) :
    partitionEndpoints host pm (xs ++ ys) =
      ((partitionEndpoints host pm xs).1 ++ (partitionEndpoints host pm ys).1,
       (partitionEndpoints host pm xs).2 ++ (partitionEndpoints host pm ys).2) := by
  induction xs with
  | nil => simp [partitionEndpoints]
  | cons ep rest ih =>
    rw [List.cons_append]
    simp only [partitionEndpoints]
    rw [ih]
    cases hb : (rewriteOne host pm ep).1
    · simp [hb]
    · simp [hb]

theorem partitionEndpoints_all_true (host : Str) (pm : List (Str × Str)) (xs : List Str)
    (h : ∀ x ∈ xs, rewriteOne host pm x = (true, x)) :
    partitionEndpoints host pm xs = (xs, []) := by
  induction xs with
  | nil => rfl
  | cons ep rest ih =>
    have hep := h ep (List.mem_cons_self ep rest)
    simp only [partitionEndpoints]
    rw [ih (fun x hx => h x (List.mem_cons_of_mem ep hx)), hep]
    simp

theorem partitionEndpoints_all_false (host : Str) (pm : List (Str × Str)) (xs : List Str)
    (h : ∀ x ∈ xs, rewriteOne host pm x = (false, x)) :
    partitionEndpoints host pm xs = ([], xs) := by
  induction xs with
  | nil => rfl
  | cons ep rest ih =>
    have hep := h ep (List.mem_cons_self ep rest)
    simp only [partitionEndpoints]
    rw [ih (fun x hx => h x (List.mem_cons_of_mem ep hx)), hep]
    simp

theorem mem_partitionEndpoints_fst (host : Str) (pm : List (Str × Str)) (xs : List Str)
    (x : Str) (h : x ∈ (partitionEndpoints host pm xs).1) :
    ∃ ep ∈ xs, rewriteOne host pm ep = (true, x) := by
  induction xs with
  | nil => simp [partitionEndpoints] at h
  | cons ep rest ih =>
    simp only [partitionEndpoints] at h
    cases hb : (rewriteOne host pm ep).1
    · rw [hb] at h
      simp only [Bool.false_eq_true, if_false] at h
      obtain ⟨e, he, hre⟩ := ih h
      exact ⟨e, List.mem_cons_of_mem _ he, hre⟩
    · rw [hb] at h
      simp only [if_true] at h
      rcases List.mem_cons.mp h with h1 | h1
      · refine ⟨ep, List.mem_cons_self _ _, ?_⟩
        have hpair : rewriteOne host pm ep
            = ((rewriteOne host pm ep).1, (rewriteOne host pm ep).2) := rfl
        rw [hpair, hb, ← h1]
      · obtain ⟨e, he, hre⟩ := ih h1
        exact ⟨e, List.mem_cons_of_mem _ he, hre⟩

theorem mem_partitionEndpoints_snd (host : Str) (pm : List (Str × Str)) (xs : List Str)
    (x : Str) (h : x ∈ (partitionEndpoints host pm xs).2) :
    ∃ ep ∈ xs, rewriteOne host pm ep = (false, x) := by
  induction xs with
  | nil => simp [partitionEndpoints] at h
  | cons ep rest ih =>
    simp only [partitionEndpoints] at h
    cases hb : (rewriteOne host pm ep).1
    · rw [hb] at h
      simp only [Bool.false_eq_true, if_false] at h
      rcases List.mem_cons.mp h with h1 | h1
      · refine ⟨ep, List.mem_cons_self _ _, ?_⟩
        have hpair : rewriteOne host pm ep
            = ((rewriteOne host pm ep).1, (rewriteOne host pm ep).2) := rfl
        rw [hpair, hb, ← h1]
      · obtain ⟨e, he, hre⟩ := ih h1
        exact ⟨e, List.mem_cons_of_mem _ he, hre⟩
    · rw [hb] at h
      simp only [if_true] at h
      obtain ⟨e, he, hre⟩ := ih h
      exact ⟨e, List.mem_cons_of_mem _ he, hre⟩

theorem mapLookup_mapUpsert (m : List (Str × Str)) (k v : Str) :
    mapLookup (mapUpsert m k v) k = some v := by
  induction m with
  | nil => simp [mapUpsert, mapLookup]
  | cons e rest ih =>
    obtain ⟨k', v'⟩ := e
    by_cases hk : k' = k
    · simp [mapUpsert, hk, mapLookup]
    · simp [mapUpsert, hk, mapLookup, ih]

theorem passthrough_mem_snd (host : Str) (pm : List (Str × Str)) (ep : Str) (eps : List Str)
    (h1 : rewriteOne host pm ep = (false, ep)) (hin : ep ∈ eps) :
    ep ∈ (partitionEndpoints host pm eps).2 := by
  induction eps with
  | nil => simp at hin
  | cons x rest ih =>
    simp only [partitionEndpoints]
    rcases List.mem_cons.mp hin with h2 | h2
    · subst h2
      rw [h1]
      simp
    · cases hb : (rewriteOne host pm x).1
      · simp only [Bool.false_eq_true, if_false]
        exact List.mem_cons_of_mem _ (ih h2)
      · simp only [if_true]
        exact ih h2

theorem partitionEndpoints_eq_filter (host : Str) (pm : List (Str × Str)) (eps : List Str) :
    partitionEndpoints host pm eps =
      ((eps.filter classifiesHttp).map (fun e => (rewriteOne host pm e).2),
       (eps.filter (fun e => ! classifiesHttp e)).map (fun e => (rewriteOne host pm e).2)) := by
  induction eps with
  | nil => rfl
  | cons ep rest ih =>
    simp only [partitionEndpoints]
    rw [ih]
    cases hb : classifiesHttp ep
    · have hb' : (rewriteOne host pm ep).1 = false := by rw [rewriteOne_fst, hb]
      simp [hb', List.filter_cons, hb]
    · have hb' : (rewriteOne host pm ep).1 = true := by rw [rewriteOne_fst, hb]
      simp [hb', List.filter_cons, hb]

/-! ### Claims -/

/-- C1, counterexample to the claim as stated: in the input
`["grpc://h:1", "http://abc"]` the second element is prefixed `http://` but is
malformed (no port), so the rewrite passes it through into the *other*
partition: the output places it after the image of the non-`http://` element,
contradicting "every element originally prefixed `http://` appears in the
output before every element not so prefixed". -/
theorem c1_counterexample :
    rewriteEndpoints "H".data [] ["grpc://h:1".data, "http://abc".data]
        = ["grpc://H:1".data, "http://abc".data]
      ∧ "http://abc".data.take 7 = "http://".data
      ∧ ¬ "grpc://h:1".data.take 7 = "http://".data := by
  decide

/-- C1 (amended): the output is the stable partition of the *rewrite images*:
every element that parses fully with scheme exactly `http` appears (rewritten)
before every other element (other schemes, and malformed passthroughs even
when literally prefixed `http://`), and within each group the relative input
order is preserved. -/
theorem c1_stable_partition (host : Str) (pm : List (Str × Str)) (eps : List Str) :
    rewriteEndpoints host pm eps =
      (eps.filter classifiesHttp).map (fun e => (rewriteOne host pm e).2)
        ++ (eps.filter (fun e => ! classifiesHttp e)).map (fun e => (rewriteOne host pm e).2) := by
  rw [rewriteEndpoints, partitionEndpoints_eq_filter]

/-- C2, counterexample to the claim as stated: with port map `{"1" ↦ ""}` the
parsed port `"1"` *is* a key of the map, yet the rewrite keeps the original
port (the code substitutes only non-empty mapped values), producing
`http://H:1` rather than the substituted `http://H:`. -/
theorem c2_counterexample :
    mapLookup [("1".data, [])] "1".data = some []
      ∧ (rewriteOne "H".data [("1".data, [])] "http://h:1".data).2 = "http://H:1".data
      ∧ "http://H:1".data ≠ "http://H:".data := by
  decide

/-- C2 (amended): for every endpoint that parses as `scheme://host:port` and
every non-empty replacement host, the rewrite yields
`scheme://host':finalPort` where the port is replaced by the mapped value
exactly when the parsed port is a key of the map *with a non-empty value*;
when the lookup misses or hits the empty string the port is unchanged. -/
theorem c2_rewrite_amended (hostR : Str) (pm : List (Str × Str)) (ep pr ad h0 p0 : Str)
    (hs : splitSchemeAux ep = some (pr, ad))
    (hp : splitHostPort ad = some (h0, p0))
    (hhost : hostR ≠ []) :
    (∀ v, mapLookup pm p0 = some v → v ≠ [] →
        (rewriteOne hostR pm ep).2 = pr ++ sepStr ++ hostR ++ ':' :: v)
      ∧ (mapLookup pm p0 = none →
        (rewriteOne hostR pm ep).2 = pr ++ sepStr ++ hostR ++ ':' :: p0)
      ∧ (mapLookup pm p0 = some [] →
        (rewriteOne hostR pm ep).2 = pr ++ sepStr ++ hostR ++ ':' :: p0) := by
  have h1 : (rewriteOne hostR pm ep).2 = pr ++ sepStr ++ hostR ++ ':' :: finalPortOf pm p0 := by
    simp only [rewriteOne, hs, hp]
  refine ⟨?_, ?_, ?_⟩
  · intro v hv hvne
    rw [h1]
    simp [finalPortOf, hv, hvne]
  · intro hv
    rw [h1]
    simp [finalPortOf, hv]
  · intro hv
    rw [h1]
    simp [finalPortOf, hv]

/-- Witness for C2's amended theorem at the spec's end-to-end scenario:
`http://127.0.0.1:8000` with host `10.0.0.5` and map `{"8000" ↦ "30001"}`
rewrites to `http://10.0.0.5:30001`. -/
theorem c2_witness :
    (rewriteOne "10.0.0.5".data [("8000".data, "30001".data)] "http://127.0.0.1:8000".data).2
      = "http".data ++ sepStr ++ "10.0.0.5".data ++ ':' :: "30001".data :=
  (c2_rewrite_amended "10.0.0.5".data [("8000".data, "30001".data)]
    "http://127.0.0.1:8000".data "http".data "127.0.0.1:8000".data "127.0.0.1".data "8000".data
    (by decide) (by decide) (by decide)).1 "30001".data (by decide) (by decide)

/-- C3: a malformed endpoint (no `://` separator, or `net.SplitHostPort`
failing on the remainder) is passed through unchanged into the non-http
partition of the output; the rewrite path raises no error (it is total and
simply forwards the original string). -/
theorem c3_malformed_passthrough (host : Str) (pm : List (Str × Str)) (ep : Str)
    (eps : List Str)
    (hm : splitSchemeAux ep = none
        ∨ ∃ pr ad, splitSchemeAux ep = some (pr, ad) ∧ splitHostPort ad = none)
    (hin : ep ∈ eps) :
    rewriteOne host pm ep = (false, ep)
      ∧ ep ∈ (partitionEndpoints host pm eps).2
      ∧ ep ∈ rewriteEndpoints host pm eps := by
  have h1 : rewriteOne host pm ep = (false, ep) := by
    rcases hm with h | ⟨pr, ad, h, h2⟩
    · simp only [rewriteOne, h]
    · simp only [rewriteOne, h, h2]
  have h2 := passthrough_mem_snd host pm ep eps h1 hin
  exact ⟨h1, h2, List.mem_append_right _ h2⟩

/-- Witness for C3 at the separator-free endpoint `"abc"`. -/
theorem c3_witness :
    rewriteOne "H".data [] "abc".data = (false, "abc".data)
      ∧ "abc".data ∈ (partitionEndpoints "H".data [] ["abc".data]).2
      ∧ "abc".data ∈ rewriteEndpoints "H".data [] ["abc".data] :=
  c3_malformed_passthrough "H".data [] "abc".data ["abc".data]
    (Or.inl (by decide)) (by decide)

/-- C4: for *every* non-empty input whose `:`-split has exactly two tokens,
the port-map parser upserts exactly the entry `first ↦ second` into the
target map; for *every* input with any other token count it leaves the map
untouched and raises no error (the function is total).  Concretely,
`"8000:25678"` yields `{"8000" ↦ "25678"}`, while `""`, `"abc"` and
`"a:b:c"` add nothing; a later pair overwrites an earlier entry with the
same key. -/
theorem c4_parse_env_to_map :
    (∀ s a b m, s ≠ [] → splitChar ':' s = [a, b] → parseEnvToMap s m = mapUpsert m a b)
      ∧ (∀ s m, (splitChar ':' s).length ≠ 2 → parseEnvToMap s m = m)
      ∧ parseEnvToMap "8000:25678".data [] = [("8000".data, "25678".data)]
      ∧ (∀ m, parseEnvToMap [] m = m)
      ∧ (∀ m, parseEnvToMap "abc".data m = m)
      ∧ (∀ m, parseEnvToMap "a:b:c".data m = m)
      ∧ (∀ m k v1 v2, mapLookup (mapUpsert (mapUpsert m k v1) k v2) k = some v2) := by
  refine ⟨?_, ?_, by decide, fun m => rfl, fun m => rfl, fun m => rfl, ?_⟩
  · intro s a b m hs hab
    simp [parseEnvToMap, hs, hab]
  · intro s m hlen
    by_cases hs : s = []
    · subst hs
      rfl
    · rw [parseEnvToMap, if_neg hs]
      split
      · rename_i a b heq
        exact absurd (by rw [heq]; simp) hlen
      · rfl
  · intro m k v1 v2
    exact mapLookup_mapUpsert (mapUpsert m k v1) k v2

/-- Witness for C4's universal two-token clause at the input `"1:2"` (an
arbitrary two-token pair other than the documented example), discharging its
hypotheses there. -/
theorem c4_witness :
    parseEnvToMap "1:2".data [] = mapUpsert [] "1".data "2".data :=
  c4_parse_env_to_map.1 "1:2".data "1".data "2".data [] (by decide) (by decide)

/-- C5: the key set of the batch result map equals exactly the key set of the
remote response's results: the conversion loop copies each response entry and
nothing else, so requested ids absent from the response are absent from the
output without error. -/
theorem c5_batch_key_set (remote : WireBatchRequest → Option WireBatchResponse)
    (r : BatchGetFileUrlsRequest) (resp : WireBatchResponse)
    (hne : r.fileIDs ≠ [])
    (hrem : remote (wireOf (defaultedReq r)) = some resp) :
    (batchGetFileUrlsWithOptions remote (some r)).results
        = some (resp.results.map (fun p => (p.1, convertInfo p.2)))
      ∧ ∀ out, (batchGetFileUrlsWithOptions remote (some r)).results = some out →
          out.map Prod.fst = resp.results.map Prod.fst := by
  have h1 : (batchGetFileUrlsWithOptions remote (some r)).results
      = some (resp.results.map (fun p => (p.1, convertInfo p.2))) := by
    simp [batchGetFileUrlsWithOptions, hne, hrem]
  refine ⟨h1, fun out hout => ?_⟩
  have hx : resp.results.map (fun p => (p.1, convertInfo p.2)) = out := by
    apply Option.some.inj
    rw [← h1, hout]
  subst hx
  simp

/-- Sample successful response entry used to exercise the batch aggregation. -/
def sampleSuccess : WireFileUrlInfo :=
  { url := "u1".data, variantUrls := [("thumbnail".data, "u1t".data)], isPublic := true,
    expiresIn := 0, filename := "a.jpg".data, size := 10,
    contentType := "image/jpeg".data, success := true, error := [] }

/-- Sample failed response entry used to exercise the batch aggregation. -/
def sampleFailure : WireFileUrlInfo :=
  { url := [], variantUrls := [], isPublic := false, expiresIn := 0, filename := [],
    size := 0, contentType := [], success := false, error := "not found".data }

/-- Witness for C5: requesting `["f1","f2","f3"]` against a response holding
only `f1` (success) and `f2` (failure) yields exactly the keys `f1, f2`. -/
theorem c5_witness :
    (batchGetFileUrlsWithOptions
        (fun _ => some { results := [("f1".data, sampleSuccess), ("f2".data, sampleFailure)],
                         expiresIn := 3600 })
        (some { fileIDs := ["f1".data, "f2".data, "f3".data], includeVariants := true,
                expiresIn := 3600 })).results
        = some [("f1".data, convertInfo sampleSuccess), ("f2".data, convertInfo sampleFailure)]
      ∧ [("f1".data, convertInfo sampleSuccess),
          ("f2".data, convertInfo sampleFailure)].map Prod.fst = ["f1".data, "f2".data] := by
  have h := c5_batch_key_set
    (fun _ => some { results := [("f1".data, sampleSuccess), ("f2".data, sampleFailure)],
                     expiresIn := 3600 })
    { fileIDs := ["f1".data, "f2".data, "f3".data], includeVariants := true, expiresIn := 3600 }
    { results := [("f1".data, sampleSuccess), ("f2".data, sampleFailure)], expiresIn := 3600 }
    (by decide) rfl
  exact ⟨h.1, rfl⟩

/-- C6, counterexample to the claim as stated: a nil batch request does *not*
produce a caller-input error — `BatchGetFileUrlsWithOptions` returns an empty
result map with a nil error (and makes no network call). -/
theorem c6_counterexample :
    (batchGetFileUrlsWithOptions (fun _ => none) none).results = some []
      ∧ (batchGetFileUrlsWithOptions (fun _ => none) none).wireSent = none :=
  ⟨rfl, rfl⟩

/-- C6 (amended): the single-file operations (`GetFile`, `GetDownloadUrl`)
return a caller-input error for an empty file id before any remote call; the
batch operation instead returns an empty result map with no error for a nil
request or an empty id list, likewise before any remote call. -/
theorem c6_validation_amended (α : Type) (fm : Str → Option α)
    (fd : Str × Int → Option (Str × List (Str × Str)))
    (fb : WireBatchRequest → Option WireBatchResponse)
    (r : BatchGetFileUrlsRequest) (hr : r.fileIDs = []) :
    getFile α fm [] = (Except.error CallError.emptyID, none)
      ∧ getDownloadUrl fd [] = (Except.error CallError.emptyID, none)
      ∧ batchGetFileUrlsWithOptions fb none
          = { results := some [], reqAfter := none, warned := false, wireSent := none }
      ∧ batchGetFileUrlsWithOptions fb (some r)
          = { results := some [], reqAfter := some r, warned := false, wireSent := none } := by
  refine ⟨rfl, rfl, rfl, ?_⟩
  simp [batchGetFileUrlsWithOptions, hr]

/-- Witness for C6's amended theorem at concrete oracles and an empty-id
batch request. -/
theorem c6_witness :
    getFile Unit (fun _ => none) [] = (Except.error CallError.emptyID, none)
      ∧ getDownloadUrl (fun _ => none) [] = (Except.error CallError.emptyID, none)
      ∧ batchGetFileUrlsWithOptions (fun _ => none) none
          = { results := some [], reqAfter := none, warned := false, wireSent := none }
      ∧ batchGetFileUrlsWithOptions (fun _ => none)
            (some { fileIDs := [], includeVariants := true, expiresIn := 5 })
          = { results := some [],
              reqAfter := some { fileIDs := [], includeVariants := true, expiresIn := 5 },
              warned := false, wireSent := none } :=
  c6_validation_amended Unit (fun _ => none) (fun _ => none) (fun _ => none)
    { fileIDs := [], includeVariants := true, expiresIn := 5 } rfl

/-- C7, counterexample to the claim as stated: host `"[a"` and port map
`{"1" ↦ "]:9"}` satisfy the spec's proviso (the substituted port `"]:9"` is
the map's own target, and looking it up again misses the map), yet the second
rewrite re-parses the bracket artifact `http://[a:]:9` as port `"9"` and
produces the different string `http://[a:9`: the rewrite is not a fixed
point. -/
theorem c7_counterexample :
    mapLookup [("1".data, "]:9".data)] "]:9".data = none
      ∧ rewriteEndpoints "[a".data [("1".data, "]:9".data)]
          (rewriteEndpoints "[a".data [("1".data, "]:9".data)] ["http://a:1".data])
        ≠ rewriteEndpoints "[a".data [("1".data, "]:9".data)] ["http://a:1".data] := by
  decide

/-- C7 (amended): the rewrite is idempotent under the spec's proviso
(re-looking-up a substituted non-empty port misses the map, hits the empty
string, or returns the port itself) *provided additionally* that the
configured host and every map value are free of the characters `:`, `[`, `]`
(otherwise the rebuilt string can re-parse differently, as the counterexample
shows). -/
theorem c7_idempotent_amended (host : Str) (pm : List (Str × Str))
    (hhost : cleanStr host)
    (hvals : ∀ e ∈ pm, cleanStr e.2)
    (hfix : ∀ e ∈ pm, e.2 ≠ [] →
      mapLookup pm e.2 = none ∨ mapLookup pm e.2 = some [] ∨ mapLookup pm e.2 = some e.2)
    (eps : List Str) :
    rewriteEndpoints host pm (rewriteEndpoints host pm eps) = rewriteEndpoints host pm eps := by
  have hA : partitionEndpoints host pm (partitionEndpoints host pm eps).1
      = ((partitionEndpoints host pm eps).1, []) := by
    apply partitionEndpoints_all_true
    intro x hx
    obtain ⟨e, he, hre⟩ := mem_partitionEndpoints_fst host pm eps x hx
    have hidem := rewriteOne_idem host pm hhost hvals hfix e
    rw [hre] at hidem
    simpa using hidem
  have hB : partitionEndpoints host pm (partitionEndpoints host pm eps).2
      = ([], (partitionEndpoints host pm eps).2) := by
    apply partitionEndpoints_all_false
    intro x hx
    obtain ⟨e, he, hre⟩ := mem_partitionEndpoints_snd host pm eps x hx
    have hidem := rewriteOne_idem host pm hhost hvals hfix e
    rw [hre] at hidem
    simpa using hidem
  rw [show rewriteEndpoints host pm eps
      = (partitionEndpoints host pm eps).1 ++ (partitionEndpoints host pm eps).2 from rfl,
    rewriteEndpoints, partitionEndpoints_append, hA, hB]
  simp

/-- Witness for C7's amended theorem at the spec's end-to-end scenario. -/
theorem c7_witness :
    rewriteEndpoints "10.0.0.5".data [("8000".data, "30001".data)]
        (rewriteEndpoints "10.0.0.5".data [("8000".data, "30001".data)]
          ["http://127.0.0.1:8000".data, "grpc://127.0.0.1:9000".data])
      = rewriteEndpoints "10.0.0.5".data [("8000".data, "30001".data)]
          ["http://127.0.0.1:8000".data, "grpc://127.0.0.1:9000".data] :=
  c7_idempotent_amended "10.0.0.5".data [("8000".data, "30001".data)]
    (by decide) (by decide) (by decide)
    ["http://127.0.0.1:8000".data, "grpc://127.0.0.1:9000".data]

/-- C8: the convenience batch entry point sends `includeVariants = true` and
`expiresIn = 3600` to the remote call; the id list is forwarded uncapped for
any length, the over-100 advisory flag is purely informational
(`warned = decide (length > 100)`), and a successful remote call yields the
converted results regardless of the requested count. -/
theorem c8_defaults_no_cap (remote : WireBatchRequest → Option WireBatchResponse)
    (fileIDs : List Str) (h : fileIDs ≠ []) :
    (batchGetFileUrls remote fileIDs).wireSent
        = some { fileIds := fileIDs, includeVariants := true, expiresIn := 3600 }
      ∧ (batchGetFileUrls remote fileIDs).warned = decide (fileIDs.length > 100)
      ∧ ∀ resp, remote { fileIds := fileIDs, includeVariants := true, expiresIn := 3600 }
            = some resp →
          (batchGetFileUrls remote fileIDs).results
            = some (resp.results.map (fun p => (p.1, convertInfo p.2))) := by
  have hd : defaultedReq
        { fileIDs := fileIDs, includeVariants := true, expiresIn := (3600 : Int) }
      = { fileIDs := fileIDs, includeVariants := true, expiresIn := (3600 : Int) } := rfl
  rw [batchGetFileUrls]
  cases hrem : remote { fileIds := fileIDs, includeVariants := true, expiresIn := 3600 } with
  | none =>
    have hb : batchGetFileUrlsWithOptions remote
          (some { fileIDs := fileIDs, includeVariants := true, expiresIn := 3600 })
        = { results := none,
            reqAfter := some { fileIDs := fileIDs, includeVariants := true, expiresIn := 3600 },
            warned := decide (fileIDs.length > 100),
            wireSent := some { fileIds := fileIDs, includeVariants := true,
                               expiresIn := 3600 } } := by
      simp [batchGetFileUrlsWithOptions, h, hd, wireOf, hrem]
    rw [hb]
    exact ⟨rfl, rfl, fun resp hresp => Option.noConfusion hresp⟩
  | some resp0 =>
    have hb : batchGetFileUrlsWithOptions remote
          (some { fileIDs := fileIDs, includeVariants := true, expiresIn := 3600 })
        = { results := some (resp0.results.map (fun p => (p.1, convertInfo p.2))),
            reqAfter := some { fileIDs := fileIDs, includeVariants := true, expiresIn := 3600 },
            warned := decide (fileIDs.length > 100),
            wireSent := some { fileIds := fileIDs, includeVariants := true,
                               expiresIn := 3600 } } := by
      simp [batchGetFileUrlsWithOptions, h, hd, wireOf, hrem]
    rw [hb]
    refine ⟨rfl, rfl, fun resp hresp => ?_⟩
    rw [← Option.some.inj hresp]

/-- Witness for C8 at 101 requested ids: the full list is sent, the advisory
flag fires, and the call still succeeds. -/
theorem c8_witness :
    (batchGetFileUrls (fun _ => some { results := [], expiresIn := 0 })
        (List.replicate 101 ['f'])).wireSent
        = some { fileIds := List.replicate 101 ['f'], includeVariants := true,
                 expiresIn := 3600 }
      ∧ (batchGetFileUrls (fun _ => some { results := [], expiresIn := 0 })
          (List.replicate 101 ['f'])).warned = true
      ∧ (batchGetFileUrls (fun _ => some { results := [], expiresIn := 0 })
          (List.replicate 101 ['f'])).results = some [] := by
  have h := c8_defaults_no_cap (fun _ => some { results := [], expiresIn := 0 })
    (List.replicate 101 ['f']) (by decide)
  refine ⟨h.1, ?_, ?_⟩
  · rw [h.2.1]
    decide
  · simpa using h.2.2 { results := [], expiresIn := 0 } rfl

/-- C9, counterexample to the claim as stated: `Register` overwrites the
caller's `service.Endpoints` (here reordered and host-rewritten), and the
batch call overwrites the caller's `req.ExpiresIn` (here `0 ↦ 3600`): neither
argument is left unmodified. -/
theorem c9_counterexample :
    (registerEndpoints "H".data []
        { name := "svc".data, endpoints := ["grpc://a:1".data, "http://b:2".data] }).endpoints
      ≠ ["grpc://a:1".data, "http://b:2".data]
      ∧ (batchGetFileUrlsWithOptions (fun _ => none)
          (some { fileIDs := ["f1".data], includeVariants := true, expiresIn := 0 })).reqAfter
        ≠ some { fileIDs := ["f1".data], includeVariants := true, expiresIn := 0 } := by
  decide

/-- C9 (amended): both operations are deterministic transformations of their
inputs, but each mutates its argument in one specific place: `Register`
overwrites the service's `Endpoints` field with the rewritten list (the name
is untouched), and the batch call overwrites the request's `ExpiresIn` with
3600 exactly when it was ≤ 0, leaving the request unchanged otherwise. -/
theorem c9_mutation_amended (host : Str) (pm : List (Str × Str)) (svc : ServiceInstance)
    (remote : WireBatchRequest → Option WireBatchResponse) (r : BatchGetFileUrlsRequest)
    (hh : host ≠ []) (hr : r.fileIDs ≠ []) :
    (registerEndpoints host pm svc).name = svc.name
      ∧ (registerEndpoints host pm svc).endpoints = rewriteEndpoints host pm svc.endpoints
      ∧ (batchGetFileUrlsWithOptions remote (some r)).reqAfter = some (defaultedReq r)
      ∧ (r.expiresIn ≤ 0 → defaultedReq r = { r with expiresIn := 3600 })
      ∧ (0 < r.expiresIn → defaultedReq r = r) := by
  refine ⟨?_, ?_, ?_, ?_, ?_⟩
  · simp [registerEndpoints, hh]
  · simp [registerEndpoints, hh]
  · cases hrem : remote (wireOf (defaultedReq r)) with
    | none => simp [batchGetFileUrlsWithOptions, hr, hrem]
    | some resp => simp [batchGetFileUrlsWithOptions, hr, hrem]
  · intro hle
    simp [defaultedReq, hle]
  · intro hlt
    simp [defaultedReq, not_le.mpr hlt]

/-- Witness for C9's amended theorem at a concrete service and request. -/
theorem c9_witness :
    (registerEndpoints "H".data [] { name := "s".data, endpoints := ["http://a:1".data] }).name
        = "s".data
      ∧ (registerEndpoints "H".data []
          { name := "s".data, endpoints := ["http://a:1".data] }).endpoints
        = rewriteEndpoints "H".data [] ["http://a:1".data]
      ∧ (batchGetFileUrlsWithOptions (fun _ => none)
          (some { fileIDs := ["f1".data], includeVariants := true, expiresIn := 0 })).reqAfter
        = some (defaultedReq { fileIDs := ["f1".data], includeVariants := true, expiresIn := 0 })
      ∧ ((0 : Int) ≤ 0 →
          defaultedReq { fileIDs := ["f1".data], includeVariants := true, expiresIn := 0 }
            = { fileIDs := ["f1".data], includeVariants := true, expiresIn := 3600 })
      ∧ ((0 : Int) < 0 →
          defaultedReq { fileIDs := ["f1".data], includeVariants := true, expiresIn := 0 }
            = { fileIDs := ["f1".data], includeVariants := true, expiresIn := 0 }) :=
  c9_mutation_amended "H".data [] { name := "s".data, endpoints := ["http://a:1".data] }
    (fun _ => none) { fileIDs := ["f1".data], includeVariants := true, expiresIn := 0 }
    (by decide) (by decide)

/-- C10: with an empty configured service host, `Register` forwards the
service instance to the inner registrar exactly as supplied — no rewriting,
no reordering, for every endpoint list including malformed entries. -/
theorem c10_empty_host_noop (pm : List (Str × Str)) (svc : ServiceInstance) :
    registerEndpoints [] pm svc = svc := rfl

end Heyin
